import Mathlib

/-
Verification of the cooperative reader/writer mutex (`TaskMutex`) and the
cancellable `BackgroundTask` facility of this repository.

The repository ships the tests (`src/GafferTestModule/TaskMutexTest.cpp`) and
the Python bindings (`src/GafferModule/ParallelAlgoBinding.cpp`) of these
components, but the implementation headers
(`Gaffer/Private/IECorePreview/TaskMutex.h`, `Gaffer/BackgroundTask.h/.cpp`)
are not among the shipped sources.  The definitions below are therefore
modelled from the specification's data model and operation contracts
(spec sections 3, 4.1, 4.2, 7), and checked against the behaviour the
shipped tests pin down.
-/

/-- Lock state carried by a `ScopedLock`, from the spec data model:
`None | Read | Write | WorkerRead`, where `WorkerRead` denotes access
obtained by joining another holder's task. -/
inductive LockType where
  | None
  | Read
  | Write
  | WorkerRead
deriving DecidableEq, Repr

/-- Owner state of a `TaskMutex`, from the spec data model:
`Unlocked`, `ReadLocked(readerCount)`, `WriteLocked(ownerThreadId)`. -/
inductive OwnerState where
  | Unlocked
  | ReadLocked (readerCount : Nat)
  | WriteLocked (ownerThreadId : Nat)
deriving DecidableEq, Repr

/-- Modelled from the spec: a `TaskMutex` holds an `ownerState` and an
optional `pendingTask` published by the write-lock holder (here identified
by the publisher's thread id).  The implementation header
`Gaffer/Private/IECorePreview/TaskMutex.h` is not among the shipped sources. -/
structure TaskMutex where
  ownerState : OwnerState
  pendingTask : Option Nat
deriving DecidableEq, Repr

/-- Modelled from the spec: a `ScopedLock` carries a `lockType` tag;
default-constructed it holds no lock. -/
structure ScopedLock where
  lockType : LockType
deriving DecidableEq, Repr

/-- A default-constructed `ScopedLock` (`TaskMutex::ScopedLock lock;`)
holds nothing: its lock type is `None`. -/
def ScopedLock.unheld : ScopedLock := ⟨LockType.None⟩

/-- Modelled from the spec: a single non-blocking acquisition attempt.
Read access succeeds while the mutex is unlocked or read-locked and bumps
the reader count; write access succeeds only from the unlocked state and
records the owner; `WorkerRead` is obtainable exactly when a published
`pendingTask` is being joined; requesting `None` never acquires. -/
def tryAcquire (m : TaskMutex) (tid : Nat) (lt : LockType) : Option TaskMutex :=
  match lt with
  | LockType.Read =>
      match m.ownerState with
      | OwnerState.Unlocked => some { m with ownerState := OwnerState.ReadLocked 1 }
      | OwnerState.ReadLocked k => some { m with ownerState := OwnerState.ReadLocked (k + 1) }
      | OwnerState.WriteLocked _ => none
  | LockType.Write =>
      match m.ownerState with
      | OwnerState.Unlocked => some { m with ownerState := OwnerState.WriteLocked tid }
      | _ => none
  | LockType.WorkerRead => if m.pendingTask.isSome then some m else none
  | LockType.None => none

/-- Result of `acquireOr`: whether the lock was acquired, the mutex state
afterwards, the caller's resulting lock type, the arguments the
work-accepted predicate was invoked with, and whether the caller went on
to help with published work. -/
structure AcquireOrResult where
  acquired : Bool
  mutex : TaskMutex
  lockType : LockType
  predCalls : List Bool
  joined : Bool
deriving DecidableEq, Repr

/-- Modelled from the spec: `acquireOr` attempts a single acquisition; if
the lock is unavailable it invokes the predicate once with a flag telling
whether a published task is available to join, joins that work only when
both hold, and returns without acquiring.  It never performs the full
blocking protocol. -/
def acquireOr (m : TaskMutex) (tid : Nat) (lt : LockType) (pred : Bool → Bool) :
    AcquireOrResult :=
  match tryAcquire m tid lt with
  | some m' => ⟨true, m', lt, [], false⟩
  | none =>
      let workAvailable := m.pendingTask.isSome
      ⟨false, m, LockType.None, [workAvailable], pred workAvailable && workAvailable⟩

/-- Modelled from the spec: blocking `acquire(mutex, write, acceptWork)`.
The calling thread stays inside the call, re-attempting acquisition each
time the environment (the other threads) changes the mutex; the oracle
list supplies the mutex states at which it retries.  `none` means the call
has not yet returned (still blocked); `some` is the state it returns in. -/
def acquire (tid : Nat) (write : Bool) (acceptWork : Bool) :
    List TaskMutex → Option (TaskMutex × LockType)
  | [] => none
  | m :: rest =>
      match tryAcquire m tid (if write then LockType.Write else LockType.Read) with
      | some m' => some (m', if write then LockType.Write else LockType.Read)
      | none => acquire tid write acceptWork rest

/-- Modelled from the spec: the release of read access performed at the
start of `upgradeToWriter` — the reader count drops by one. -/
def releaseRead (m : TaskMutex) : TaskMutex :=
  match m.ownerState with
  | OwnerState.ReadLocked (k + 1) =>
      { m with ownerState := if k = 0 then OwnerState.Unlocked else OwnerState.ReadLocked k }
  | _ => m

/-- Modelled from the spec: `upgradeToWriter` is valid only when the lock
type is `Read` (anything else is a fatal caller contract violation,
modelled as `none`); it releases the read access and then blocks for write
access, during which the environment may intervene (the oracle `env` lists
the further mutex states at which acquisition is retried). -/
def upgradeToWriter (m : TaskMutex) (tid : Nat) (l : ScopedLock) (env : List TaskMutex) :
    Option (TaskMutex × ScopedLock) :=
  if l.lockType = LockType.Read then
    (acquire tid true true (releaseRead m :: env)).map (fun p => (p.1, ⟨p.2⟩))
  else
    none

/-- Modelled from the spec and the shipped tests: the `ScopedLock`
constructor taking only the mutex — its defaulted parameters are
`write = true` and `acceptWork = true`, so `TaskMutex::ScopedLock lock( mutex )`
performs a write acquisition (the tests assert `lockType() == Write`
immediately after this construction). -/
def scopedLockOfMutex (m : TaskMutex) (tid : Nat) : Option (TaskMutex × ScopedLock) :=
  (acquire tid true true [m]).map (fun p => (p.1, ⟨p.2⟩))

/-- A fragment of the parallel decomposition of a task published by
`execute()`: it either returns normally or throws an exception carrying a
message. -/
abbrev Frag := Except String Unit

/-- The first exception among a list of fragments, in execution order. -/
def collectError (frags : List Frag) : Option String :=
  frags.findSome? (fun f => match f with | Except.ok _ => none | Except.error e => some e)

/-- Outcome of a joining worker running its fragments, modelled from the
spec: exceptions are captured on whichever thread threw and stored for the
initiator (`contributed`); nothing is re-raised in the worker's own
context (`raisedLocally`). -/
structure WorkerRun where
  contributed : Option String
  raisedLocally : Option String
deriving DecidableEq, Repr

/-- Modelled from the spec: a cooperative worker runs its share of the
published task's fragments; the first exception is captured into the
initiator's cell and none escapes locally. -/
def runWorkerFrags (frags : List Frag) : WorkerRun :=
  { contributed := collectError frags, raisedLocally := none }

/-- What a joining worker's participation returns into the worker's own
context: the captured-exception design means it exits normally. -/
def workerOutcome (frags : List Frag) : Except String Unit :=
  match (runWorkerFrags frags).raisedLocally with
  | some e => Except.error e
  | none => Except.ok ()

/-- Result of `execute(callable)`: the mutex afterwards (task
un-published), the single outcome rethrown to the caller, and the outcome
each joining worker's participation produced in its own context. -/
structure ExecResult where
  mutex : TaskMutex
  outcome : Except String Unit
  workerOutcomes : List (Except String Unit)
deriving Repr

/-- Modelled from the spec: `execute` is valid only while holding `Write`
(anything else is a fatal contract violation, modelled as `none`).  It
publishes the task, the initiator and every joining worker run their
fragments, all exceptions are captured into a single-owner cell (first
thrown wins, initiator's fragments ordered first), the task is
un-published, and the cell's content is rethrown exactly once to the
caller — only after every worker's run is accounted for. -/
def execute (m : TaskMutex) (tid : Nat) (l : ScopedLock)
    (initiatorFrags : List Frag) (workerFrags : List (List Frag)) : Option ExecResult :=
  if l.lockType = LockType.Write then
    let published : TaskMutex := { m with pendingTask := some tid }
    let runs := workerFrags.map runWorkerFrags
    let cell : Option String :=
      match collectError initiatorFrags with
      | some e => some e
      | none => runs.findSome? (fun r => r.contributed)
    some
      { mutex := { published with pendingTask := none },
        outcome := match cell with | some e => Except.error e | none => Except.ok (),
        workerOutcomes := workerFrags.map workerOutcome }
  else
    none

/-- What a blocked `acquire(acceptWork = true)` does under contention,
modelled from the spec: it joins the published task and runs fragments as
a cooperative worker; fragment exceptions go to the initiator's cell and
are never thrown back out of the worker's own `acquire`. -/
structure JoiningAcquire where
  acquisition : Option (TaskMutex × LockType)
  contributedError : Option String
  localException : Option String
deriving Repr

/-- Modelled from the spec: a contended `acquire` that accepts work —
the acquisition itself proceeds against the oracle of mutex states, the
worker's fragments contribute their first exception to the initiator's
cell, and no exception surfaces locally. -/
def acquireAcceptingWork (tid : Nat) (write : Bool) (ms : List TaskMutex)
    (frags : List Frag) : JoiningAcquire :=
  { acquisition := acquire tid write true ms,
    contributedError := (runWorkerFrags frags).contributed,
    localException := (runWorkerFrags frags).raisedLocally }

/-- Status of a `BackgroundTask`, from the spec data model:
`Running | Completed | Cancelled`. -/
inductive Status where
  | Running
  | Completed
  | Cancelled
deriving DecidableEq, Repr

/-- Modelled from the spec: a `BackgroundTask` carries its status, the
monotonic cancellation token, and the number of cooperative checkpoints
its work still has to pass before returning normally.  The implementation
(`Gaffer/BackgroundTask.h/.cpp`) is not among the shipped sources; only
its Python binding is. -/
structure BackgroundTask where
  status : Status
  cancellationToken : Bool
  checkpointsLeft : Nat
deriving DecidableEq, Repr

/-- Modelled from the spec: `cancel()` raises the cancellation token and
does not block; the token is never lowered. -/
def BackgroundTask.cancel (b : BackgroundTask) : BackgroundTask :=
  { b with cancellationToken := true }

/-- Modelled from the spec: one unit of the task's work.  At each
cooperative checkpoint the work observes the token and unwinds into the
`Cancelled` terminal state if it is raised; with no checkpoints left it
returns normally into `Completed`; terminal states are untouched. -/
def BackgroundTask.workStep (b : BackgroundTask) : BackgroundTask :=
  match b.status with
  | Status.Running =>
      if b.cancellationToken then { b with status := Status.Cancelled }
      else
        match b.checkpointsLeft with
        | 0 => { b with status := Status.Completed }
        | k + 1 => { b with checkpointsLeft := k }
  | _ => b

/-- Modelled from the spec: `done()` — non-blocking query of
terminal-state reachedness. -/
def BackgroundTask.done (b : BackgroundTask) : Bool :=
  decide (b.status ≠ Status.Running)

/-- Modelled from the spec: `wait()` blocks until the task reaches a
terminal state; modelled as driving work steps, bounded by fuel (the
result still being `Running` when fuel runs out plays the role of "still
blocked"). -/
def BackgroundTask.wait : Nat → BackgroundTask → BackgroundTask
  | 0, b => b
  | n + 1, b => if b.done then b else BackgroundTask.wait n b.workStep

/-- Modelled from the spec: `cancelAndWait()` — cancels, then blocks
until the terminal state is reached. -/
def BackgroundTask.cancelAndWait (fuel : Nat) (b : BackgroundTask) : BackgroundTask :=
  BackgroundTask.wait fuel { b with cancellationToken := true }

/-- Modelled from the spec: the destructor — it must fully quiesce the
task (`cancelAndWait` semantics) before destruction completes. -/
def BackgroundTask.destroy (fuel : Nat) (b : BackgroundTask) : BackgroundTask :=
  BackgroundTask.cancelAndWait fuel b

/-- An event that can happen to a `BackgroundTask`: either some thread
calls `cancel()`, or the worker advances the work by one step. -/
def BTStep (b b' : BackgroundTask) : Prop :=
  b' = b.cancel ∨ b' = b.workStep

/-- Program counter of a thread running the lazy-initialisation protocol
of `testTaskMutex`: acquire a read lock, check the flag, upgrade to
writer, check again, initialise, release. -/
inductive PC where
  | start
  | reading
  | upgrading
  | writing
  | finished
deriving DecidableEq, Repr

/-- A thread of the lazy-initialisation scenario: its program counter,
whether it performed the initialisation side-effect, and whether it
observed the resource fully initialised. -/
structure ThreadA where
  pc : PC
  didInit : Bool
  observed : Bool
deriving DecidableEq, Repr

/-- Global state of the lazy-initialisation scenario: the mutex owner
state, the `initialised` flag protected by it, and the `n` racing
threads. -/
structure StateA (n : Nat) where
  owner : OwnerState
  initialised : Bool
  threads : Fin n → ThreadA

/-- Initial state of the lazy-initialisation race: mutex unlocked,
resource not initialised, every thread at the start of the protocol. -/
def initA (n : Nat) : StateA n :=
  { owner := OwnerState.Unlocked,
    initialised := false,
    threads := fun _ => ⟨PC.start, false, false⟩ }

/-- Interleaving semantics of the read-then-upgrade lazy-initialisation
protocol (modelled from the spec's `acquire` / `upgradeToWriter` /
`execute` contracts and the `testTaskMutex` scenario).  Each constructor
is one atomic step of one thread; `upgradeToWriter`'s release and
re-acquire are deliberately separate steps, which is what makes the
second check necessary. -/
inductive StepA : {n : Nat} → StateA n → StateA n → Prop where
  | acquireReadFresh {n} (t : Fin n) (s : StateA n) :
      (s.threads t).pc = PC.start →
      s.owner = OwnerState.Unlocked →
      StepA s { s with
        owner := OwnerState.ReadLocked 1,
        threads := Function.update s.threads t { s.threads t with pc := PC.reading } }
  | acquireReadMore {n} (t : Fin n) (s : StateA n) (k : Nat) :
      (s.threads t).pc = PC.start →
      s.owner = OwnerState.ReadLocked k →
      StepA s { s with
        owner := OwnerState.ReadLocked (k + 1),
        threads := Function.update s.threads t { s.threads t with pc := PC.reading } }
  | readTrue {n} (t : Fin n) (s : StateA n) (k : Nat) :
      (s.threads t).pc = PC.reading →
      s.initialised = true →
      s.owner = OwnerState.ReadLocked (k + 1) →
      StepA s { s with
        owner := if k = 0 then OwnerState.Unlocked else OwnerState.ReadLocked k,
        threads := Function.update s.threads t
          { s.threads t with pc := PC.finished, observed := true } }
  | readFalse {n} (t : Fin n) (s : StateA n) (k : Nat) :
      (s.threads t).pc = PC.reading →
      s.initialised = false →
      s.owner = OwnerState.ReadLocked (k + 1) →
      StepA s { s with
        owner := if k = 0 then OwnerState.Unlocked else OwnerState.ReadLocked k,
        threads := Function.update s.threads t { s.threads t with pc := PC.upgrading } }
  | acquireWrite {n} (t : Fin n) (s : StateA n) :
      (s.threads t).pc = PC.upgrading →
      s.owner = OwnerState.Unlocked →
      StepA s { s with
        owner := OwnerState.WriteLocked t.val,
        threads := Function.update s.threads t { s.threads t with pc := PC.writing } }
  | writeTrue {n} (t : Fin n) (s : StateA n) :
      (s.threads t).pc = PC.writing →
      s.initialised = true →
      s.owner = OwnerState.WriteLocked t.val →
      StepA s { s with
        owner := OwnerState.Unlocked,
        threads := Function.update s.threads t
          { s.threads t with pc := PC.finished, observed := true } }
  | writeFalse {n} (t : Fin n) (s : StateA n) :
      (s.threads t).pc = PC.writing →
      s.initialised = false →
      s.owner = OwnerState.WriteLocked t.val →
      StepA s { s with
        owner := OwnerState.Unlocked,
        initialised := true,
        threads := Function.update s.threads t
          { s.threads t with pc := PC.finished, didInit := true, observed := true } }

/-- States of the lazy-initialisation race reachable from the initial
state by any interleaving. -/
inductive ReachA : (n : Nat) → StateA n → Prop where
  | init (n : Nat) : ReachA n (initA n)
  | step {n : Nat} {s s' : StateA n} : ReachA n s → StepA s s' → ReachA n s'

/-- Global state of a `TaskMutex` shared by `n` threads, each carrying
the lock type of its own `ScopedLock`: the mutex owner state, the
published `pendingTask` (identified by its publisher), and the per-thread
lock types. -/
structure StateB (n : Nat) where
  owner : OwnerState
  pending : Option (Fin n)
  lockTypes : Fin n → LockType

/-- The number of threads currently holding read access. -/
def countRead {n : Nat} (lt : Fin n → LockType) : Nat :=
  Finset.sum Finset.univ (fun t => if lt t = LockType.Read then 1 else 0)

/-- Initial state: mutex unlocked, no task published, no thread holding
anything. -/
def initB (n : Nat) : StateB n :=
  { owner := OwnerState.Unlocked,
    pending := none,
    lockTypes := fun _ => LockType.None }

/-- Interleaving semantics of the `TaskMutex` operations, modelled from
the spec's operation contracts: read/write acquisition and release, the
write holder publishing and un-publishing its task inside `execute()`,
and other threads joining the published task as cooperative workers
(`WorkerRead`) and leaving it again.  Un-publishing waits for all joined
workers, and release of the write lock happens only after `execute`
returned (task un-published). -/
inductive StepB : {n : Nat} → StateB n → StateB n → Prop where
  | acquireReadFresh {n} (t : Fin n) (s : StateB n) :
      s.lockTypes t = LockType.None →
      s.owner = OwnerState.Unlocked →
      StepB s { s with
        owner := OwnerState.ReadLocked 1,
        lockTypes := Function.update s.lockTypes t LockType.Read }
  | acquireReadMore {n} (t : Fin n) (s : StateB n) (k : Nat) :
      s.lockTypes t = LockType.None →
      s.owner = OwnerState.ReadLocked k →
      StepB s { s with
        owner := OwnerState.ReadLocked (k + 1),
        lockTypes := Function.update s.lockTypes t LockType.Read }
  | acquireWrite {n} (t : Fin n) (s : StateB n) :
      s.lockTypes t = LockType.None →
      s.owner = OwnerState.Unlocked →
      StepB s { s with
        owner := OwnerState.WriteLocked t.val,
        lockTypes := Function.update s.lockTypes t LockType.Write }
  | releaseRead {n} (t : Fin n) (s : StateB n) (k : Nat) :
      s.lockTypes t = LockType.Read →
      s.owner = OwnerState.ReadLocked (k + 1) →
      StepB s { s with
        owner := if k = 0 then OwnerState.Unlocked else OwnerState.ReadLocked k,
        lockTypes := Function.update s.lockTypes t LockType.None }
  | releaseWrite {n} (t : Fin n) (s : StateB n) :
      s.lockTypes t = LockType.Write →
      s.owner = OwnerState.WriteLocked t.val →
      s.pending = none →
      StepB s { s with
        owner := OwnerState.Unlocked,
        lockTypes := Function.update s.lockTypes t LockType.None }
  | publishTask {n} (t : Fin n) (s : StateB n) :
      s.lockTypes t = LockType.Write →
      s.pending = none →
      StepB s { s with pending := some t }
  | unpublishTask {n} (t : Fin n) (s : StateB n) :
      s.lockTypes t = LockType.Write →
      s.pending = some t →
      (∀ t' : Fin n, s.lockTypes t' ≠ LockType.WorkerRead) →
      StepB s { s with pending := none }
  | joinWork {n} (t w : Fin n) (s : StateB n) :
      s.lockTypes t = LockType.None →
      s.pending = some w →
      w ≠ t →
      StepB s { s with lockTypes := Function.update s.lockTypes t LockType.WorkerRead }
  | workerRelease {n} (t : Fin n) (s : StateB n) :
      s.lockTypes t = LockType.WorkerRead →
      StepB s { s with lockTypes := Function.update s.lockTypes t LockType.None }

/-- States of the shared mutex reachable from the initial state by any
interleaving of the operations. -/
inductive ReachB : (n : Nat) → StateB n → Prop where
  | init (n : Nat) : ReachB n (initB n)
  | step {n : Nat} {s s' : StateB n} : ReachB n s → StepB s s' → ReachB n s'

/-- The inductive invariant of the shared-mutex machine: the owner state
accounts exactly for the write holder and the number of read holders, a
published task is owned by the thread holding write access, and a
`WorkerRead` thread is joined to a task published by a different thread. -/
def InvB {n : Nat} (s : StateB n) : Prop :=
  (∀ t, s.lockTypes t = LockType.Write ↔ s.owner = OwnerState.WriteLocked t.val) ∧
  (s.owner = OwnerState.Unlocked → countRead s.lockTypes = 0) ∧
  (∀ k, s.owner = OwnerState.ReadLocked k → countRead s.lockTypes = k ∧ 0 < k) ∧
  (∀ i, s.owner = OwnerState.WriteLocked i → countRead s.lockTypes = 0) ∧
  (∀ w, s.pending = some w → s.lockTypes w = LockType.Write) ∧
  (∀ t, s.lockTypes t = LockType.WorkerRead → ∃ w, s.pending = some w ∧ w ≠ t)


/-- The inductive invariant of the lazy-initialisation race: a recorded
initialisation side-effect and the `initialised` flag imply each other,
at most one thread ever records the side-effect, an observation of the
resource implies it really is initialised, and a finished thread has
observed it. -/
def InvA {n : Nat} (s : StateA n) : Prop :=
  (∀ t, (s.threads t).didInit = true → s.initialised = true) ∧
  (s.initialised = true → ∃ t, (s.threads t).didInit = true) ∧
  (∀ t₁ t₂, (s.threads t₁).didInit = true → (s.threads t₂).didInit = true → t₁ = t₂) ∧
  (∀ t, (s.threads t).observed = true → s.initialised = true) ∧
  (∀ t, (s.threads t).pc = PC.finished → (s.threads t).observed = true)

lemma countRead_update {n : Nat} (lt : Fin n → LockType) (t : Fin n) (v : LockType) :
    countRead (Function.update lt t v) + (if lt t = LockType.Read then 1 else 0)
      = countRead lt + (if v = LockType.Read then 1 else 0) := by
  classical
  have e1 : countRead (Function.update lt t v)
      = (∑ x ∈ Finset.univ.erase t, if Function.update lt t v x = LockType.Read then (1 : Nat) else 0)
        + (if Function.update lt t v t = LockType.Read then (1 : Nat) else 0) := by
    unfold countRead
    exact (Finset.sum_erase_add _ _ (Finset.mem_univ t)).symm
  have e2 : countRead lt
      = (∑ x ∈ Finset.univ.erase t, if lt x = LockType.Read then (1 : Nat) else 0)
        + (if lt t = LockType.Read then (1 : Nat) else 0) := by
    unfold countRead
    exact (Finset.sum_erase_add _ _ (Finset.mem_univ t)).symm
  have e3 : (∑ x ∈ Finset.univ.erase t, if Function.update lt t v x = LockType.Read then (1 : Nat) else 0)
      = ∑ x ∈ Finset.univ.erase t, if lt x = LockType.Read then (1 : Nat) else 0 :=
    Finset.sum_congr rfl (fun x hx => by rw [Function.update_noteq (Finset.ne_of_mem_erase hx)])
  rw [e1, e2, e3, Function.update_same]
  omega

lemma countRead_pos {n : Nat} (lt : Fin n → LockType) (t : Fin n)
    (h : lt t = LockType.Read) : 0 < countRead lt := by
  classical
  have e : countRead lt
      = (∑ x ∈ Finset.univ.erase t, if lt x = LockType.Read then (1 : Nat) else 0)
        + (if lt t = LockType.Read then (1 : Nat) else 0) := by
    unfold countRead
    exact (Finset.sum_erase_add _ _ (Finset.mem_univ t)).symm
  rw [h] at e
  simp at e
  omega

lemma invB_init (n : Nat) : InvB (initB n) := by
  refine ⟨?_, ?_, ?_, ?_, ?_, ?_⟩ <;> simp [initB, countRead]

lemma invB_step {n : Nat} {s s' : StateB n} (hs : InvB s) (hstep : StepB s s') : InvB s' := by
  obtain ⟨hW, hU, hR, hWc, hP, hJ⟩ := hs
  cases hstep with
  | acquireReadFresh t s hlt howner =>
      have hcnt := countRead_update s.lockTypes t LockType.Read
      rw [hlt] at hcnt
      simp at hcnt
      have hc0 : countRead s.lockTypes = 0 := hU howner
      unfold InvB
      dsimp only
      refine ⟨?_, ?_, ?_, ?_, ?_, ?_⟩
      · intro t'
        constructor
        · intro h
          exfalso
          by_cases ht : t' = t
          · subst ht; rw [Function.update_same] at h; exact absurd h (by simp)
          · rw [Function.update_noteq ht] at h
            have h2 := (hW t').mp h
            rw [howner] at h2
            exact absurd h2 (by simp)
        · intro h
          exact absurd h (by simp)
      · intro h
        exact absurd h (by simp)
      · intro k h
        have hk : k = 1 := by
          have h2 : OwnerState.ReadLocked 1 = OwnerState.ReadLocked k := h
          injection h2 with h3
          omega
        subst hk
        exact ⟨by omega, by omega⟩
      · intro i h
        exact absurd h (by simp)
      · intro w hw
        have hPw := hP w hw
        by_cases hwt : w = t
        · subst hwt; rw [hPw] at hlt; exact absurd hlt (by simp)
        · rw [Function.update_noteq hwt]
          exact hPw
      · intro t' h
        by_cases ht : t' = t
        · subst ht; rw [Function.update_same] at h; exact absurd h (by simp)
        · rw [Function.update_noteq ht] at h
          exact hJ t' h
  | acquireReadMore t s k hlt howner =>
      have hcnt := countRead_update s.lockTypes t LockType.Read
      rw [hlt] at hcnt
      simp at hcnt
      obtain ⟨hck, hkpos⟩ := hR k howner
      unfold InvB
      dsimp only
      refine ⟨?_, ?_, ?_, ?_, ?_, ?_⟩
      · intro t'
        constructor
        · intro h
          exfalso
          by_cases ht : t' = t
          · subst ht; rw [Function.update_same] at h; exact absurd h (by simp)
          · rw [Function.update_noteq ht] at h
            have h2 := (hW t').mp h
            rw [howner] at h2
            exact absurd h2 (by simp)
        · intro h
          exact absurd h (by simp)
      · intro h
        exact absurd h (by simp)
      · intro k' h
        have hk : k' = k + 1 := by
          have h2 : OwnerState.ReadLocked (k + 1) = OwnerState.ReadLocked k' := h
          injection h2 with h3
          omega
        subst hk
        exact ⟨by omega, by omega⟩
      · intro i h
        exact absurd h (by simp)
      · intro w hw
        have hPw := hP w hw
        by_cases hwt : w = t
        · subst hwt; rw [hPw] at hlt; exact absurd hlt (by simp)
        · rw [Function.update_noteq hwt]
          exact hPw
      · intro t' h
        by_cases ht : t' = t
        · subst ht; rw [Function.update_same] at h; exact absurd h (by simp)
        · rw [Function.update_noteq ht] at h
          exact hJ t' h
  | acquireWrite t s hlt howner =>
      have hcnt := countRead_update s.lockTypes t LockType.Write
      rw [hlt] at hcnt
      simp at hcnt
      have hc0 : countRead s.lockTypes = 0 := hU howner
      unfold InvB
      dsimp only
      refine ⟨?_, ?_, ?_, ?_, ?_, ?_⟩
      · intro t'
        constructor
        · intro h
          by_cases ht : t' = t
          · subst ht; rfl
          · rw [Function.update_noteq ht] at h
            have h2 := (hW t').mp h
            rw [howner] at h2
            exact absurd h2 (by simp)
        · intro h
          have hv : t.val = t'.val := by injection h
          have ht : t' = t := Fin.ext hv.symm
          subst ht
          rw [Function.update_same]
      · intro h
        exact absurd h (by simp)
      · intro k h
        exact absurd h (by simp)
      · intro i h
        omega
      · intro w hw
        have hPw := hP w hw
        by_cases hwt : w = t
        · subst hwt; rw [hPw] at hlt; exact absurd hlt (by simp)
        · rw [Function.update_noteq hwt]
          exact hPw
      · intro t' h
        by_cases ht : t' = t
        · subst ht; rw [Function.update_same] at h; exact absurd h (by simp)
        · rw [Function.update_noteq ht] at h
          exact hJ t' h
  | releaseRead t s k hlt howner =>
      have hcnt := countRead_update s.lockTypes t LockType.None
      rw [hlt] at hcnt
      simp at hcnt
      obtain ⟨hck, hkpos⟩ := hR (k + 1) howner
      unfold InvB
      dsimp only
      refine ⟨?_, ?_, ?_, ?_, ?_, ?_⟩
      · intro t'
        constructor
        · intro h
          exfalso
          by_cases ht : t' = t
          · subst ht; rw [Function.update_same] at h; exact absurd h (by simp)
          · rw [Function.update_noteq ht] at h
            have h2 := (hW t').mp h
            rw [howner] at h2
            exact absurd h2 (by simp)
        · intro h
          exfalso
          by_cases hk0 : k = 0 <;> simp [hk0] at h
      · intro h
        by_cases hk0 : k = 0
        · omega
        · simp [hk0] at h
      · intro k' h
        by_cases hk0 : k = 0
        · simp [hk0] at h
        · simp [hk0] at h
          subst h
          exact ⟨by omega, by omega⟩
      · intro i h
        by_cases hk0 : k = 0 <;> simp [hk0] at h
      · intro w hw
        have hPw := hP w hw
        by_cases hwt : w = t
        · subst hwt; rw [hPw] at hlt; exact absurd hlt (by simp)
        · rw [Function.update_noteq hwt]
          exact hPw
      · intro t' h
        by_cases ht : t' = t
        · subst ht; rw [Function.update_same] at h; exact absurd h (by simp)
        · rw [Function.update_noteq ht] at h
          exact hJ t' h
  | releaseWrite t s hlt howner hpend =>
      have hcnt := countRead_update s.lockTypes t LockType.None
      rw [hlt] at hcnt
      simp at hcnt
      have hc0 : countRead s.lockTypes = 0 := hWc t.val howner
      unfold InvB
      dsimp only
      refine ⟨?_, ?_, ?_, ?_, ?_, ?_⟩
      · intro t'
        constructor
        · intro h
          exfalso
          by_cases ht : t' = t
          · subst ht; rw [Function.update_same] at h; exact absurd h (by simp)
          · rw [Function.update_noteq ht] at h
            have h2 := (hW t').mp h
            rw [howner] at h2
            have hv : t.val = t'.val := by injection h2
            exact absurd (Fin.ext hv.symm : t' = t) ht
        · intro h
          exact absurd h (by simp)
      · intro _
        omega
      · intro k h
        exact absurd h (by simp)
      · intro i h
        exact absurd h (by simp)
      · intro w hw
        rw [hpend] at hw
        exact absurd hw (by simp)
      · intro t' h
        by_cases ht : t' = t
        · subst ht; rw [Function.update_same] at h; exact absurd h (by simp)
        · rw [Function.update_noteq ht] at h
          obtain ⟨w, hw, _⟩ := hJ t' h
          rw [hpend] at hw
          exact absurd hw (by simp)
  | publishTask t s hlt hpend =>
      unfold InvB
      dsimp only
      refine ⟨hW, hU, hR, hWc, ?_, ?_⟩
      · intro w hw
        have hw2 : some t = some w := hw
        injection hw2 with h3
        subst h3
        exact hlt
      · intro t' h
        obtain ⟨w, hw, _⟩ := hJ t' h
        rw [hpend] at hw
        exact absurd hw (by simp)
  | unpublishTask t s hlt hpend hnw =>
      unfold InvB
      dsimp only
      refine ⟨hW, hU, hR, hWc, ?_, ?_⟩
      · intro w hw
        exact absurd hw (by simp)
      · intro t' h
        exact absurd h (hnw t')
  | joinWork t w s hlt hpend hwt =>
      have hcnt := countRead_update s.lockTypes t LockType.WorkerRead
      rw [hlt] at hcnt
      simp at hcnt
      unfold InvB
      dsimp only
      refine ⟨?_, ?_, ?_, ?_, ?_, ?_⟩
      · intro t'
        constructor
        · intro h
          by_cases ht : t' = t
          · subst ht; rw [Function.update_same] at h; exact absurd h (by simp)
          · rw [Function.update_noteq ht] at h
            exact (hW t').mp h
        · intro h
          have h2 := (hW t').mpr h
          by_cases ht : t' = t
          · subst ht; rw [hlt] at h2; exact absurd h2 (by simp)
          · rw [Function.update_noteq ht]
            exact h2
      · intro h
        have := hU h
        omega
      · intro k h
        obtain ⟨h1, h2⟩ := hR k h
        exact ⟨by omega, h2⟩
      · intro i h
        have := hWc i h
        omega
      · intro w' hw'
        have hPw := hP w' hw'
        by_cases hwt' : w' = t
        · subst hwt'; rw [hPw] at hlt; exact absurd hlt (by simp)
        · rw [Function.update_noteq hwt']
          exact hPw
      · intro t' h
        by_cases ht : t' = t
        · subst ht
          exact ⟨w, hpend, hwt⟩
        · rw [Function.update_noteq ht] at h
          exact hJ t' h
  | workerRelease t s hlt =>
      have hcnt := countRead_update s.lockTypes t LockType.None
      rw [hlt] at hcnt
      simp at hcnt
      unfold InvB
      dsimp only
      refine ⟨?_, ?_, ?_, ?_, ?_, ?_⟩
      · intro t'
        constructor
        · intro h
          by_cases ht : t' = t
          · subst ht; rw [Function.update_same] at h; exact absurd h (by simp)
          · rw [Function.update_noteq ht] at h
            exact (hW t').mp h
        · intro h
          have h2 := (hW t').mpr h
          by_cases ht : t' = t
          · subst ht; rw [hlt] at h2; exact absurd h2 (by simp)
          · rw [Function.update_noteq ht]
            exact h2
      · intro h
        have := hU h
        omega
      · intro k h
        obtain ⟨h1, h2⟩ := hR k h
        exact ⟨by omega, h2⟩
      · intro i h
        have := hWc i h
        omega
      · intro w' hw'
        have hPw := hP w' hw'
        by_cases hwt' : w' = t
        · subst hwt'; rw [hPw] at hlt; exact absurd hlt (by simp)
        · rw [Function.update_noteq hwt']
          exact hPw
      · intro t' h
        by_cases ht : t' = t
        · subst ht; rw [Function.update_same] at h; exact absurd h (by simp)
        · rw [Function.update_noteq ht] at h
          exact hJ t' h

lemma invB_reach {n : Nat} {s : StateB n} (h : ReachB n s) : InvB s := by
  induction h with
  | init => exact invB_init n
  | step _ hstep ih => exact invB_step ih hstep

lemma invA_keepFlags {n : Nat} {s : StateA n} (hs : InvA s) (o : OwnerState) (t : Fin n)
    (pc' : PC) (hpc : pc' ≠ PC.finished) :
    InvA { owner := o, initialised := s.initialised,
           threads := Function.update s.threads t { s.threads t with pc := pc' } } := by
  obtain ⟨hD, hE, hO, hB, hF⟩ := hs
  unfold InvA
  dsimp only
  refine ⟨?_, ?_, ?_, ?_, ?_⟩
  · intro t' h
    by_cases ht : t' = t
    · subst ht; rw [Function.update_same] at h; exact hD t' h
    · rw [Function.update_noteq ht] at h; exact hD t' h
  · intro h
    obtain ⟨t₀, h₀⟩ := hE h
    refine ⟨t₀, ?_⟩
    by_cases ht : t₀ = t
    · subst ht; rw [Function.update_same]; exact h₀
    · rw [Function.update_noteq ht]; exact h₀
  · intro t₁ t₂ h₁ h₂
    have h₁' : (s.threads t₁).didInit = true := by
      by_cases ht : t₁ = t
      · subst ht; rw [Function.update_same] at h₁; exact h₁
      · rw [Function.update_noteq ht] at h₁; exact h₁
    have h₂' : (s.threads t₂).didInit = true := by
      by_cases ht : t₂ = t
      · subst ht; rw [Function.update_same] at h₂; exact h₂
      · rw [Function.update_noteq ht] at h₂; exact h₂
    exact hO t₁ t₂ h₁' h₂'
  · intro t' h
    by_cases ht : t' = t
    · subst ht; rw [Function.update_same] at h; exact hB t' h
    · rw [Function.update_noteq ht] at h; exact hB t' h
  · intro t' h
    by_cases ht : t' = t
    · subst ht; rw [Function.update_same] at h; exact absurd h hpc
    · rw [Function.update_noteq ht] at h
      rw [Function.update_noteq ht]
      exact hF t' h

lemma invA_observe {n : Nat} {s : StateA n} (hs : InvA s) (hinit : s.initialised = true)
    (o : OwnerState) (t : Fin n) :
    InvA { owner := o, initialised := s.initialised,
           threads := Function.update s.threads t
             { s.threads t with pc := PC.finished, observed := true } } := by
  obtain ⟨hD, hE, hO, hB, hF⟩ := hs
  unfold InvA
  dsimp only
  refine ⟨?_, ?_, ?_, ?_, ?_⟩
  · intro t' h
    by_cases ht : t' = t
    · subst ht; rw [Function.update_same] at h; exact hD t' h
    · rw [Function.update_noteq ht] at h; exact hD t' h
  · intro h
    obtain ⟨t₀, h₀⟩ := hE h
    refine ⟨t₀, ?_⟩
    by_cases ht : t₀ = t
    · subst ht; rw [Function.update_same]; exact h₀
    · rw [Function.update_noteq ht]; exact h₀
  · intro t₁ t₂ h₁ h₂
    have h₁' : (s.threads t₁).didInit = true := by
      by_cases ht : t₁ = t
      · subst ht; rw [Function.update_same] at h₁; exact h₁
      · rw [Function.update_noteq ht] at h₁; exact h₁
    have h₂' : (s.threads t₂).didInit = true := by
      by_cases ht : t₂ = t
      · subst ht; rw [Function.update_same] at h₂; exact h₂
      · rw [Function.update_noteq ht] at h₂; exact h₂
    exact hO t₁ t₂ h₁' h₂'
  · intro t' h
    exact hinit
  · intro t' h
    by_cases ht : t' = t
    · subst ht; rw [Function.update_same]
    · rw [Function.update_noteq ht] at h
      rw [Function.update_noteq ht]
      exact hF t' h

lemma invA_doInit {n : Nat} {s : StateA n} (hs : InvA s) (hfalse : s.initialised = false)
    (o : OwnerState) (t : Fin n) :
    InvA { owner := o, initialised := true,
           threads := Function.update s.threads t
             { s.threads t with pc := PC.finished, didInit := true, observed := true } } := by
  obtain ⟨hD, hE, hO, hB, hF⟩ := hs
  unfold InvA
  dsimp only
  refine ⟨?_, ?_, ?_, ?_, ?_⟩
  · intro t' h
    rfl
  · intro h
    refine ⟨t, ?_⟩
    rw [Function.update_same]
  · intro t₁ t₂ h₁ h₂
    by_cases ht₁ : t₁ = t
    · by_cases ht₂ : t₂ = t
      · rw [ht₁, ht₂]
      · rw [Function.update_noteq ht₂] at h₂
        have := hD t₂ h₂
        rw [hfalse] at this
        exact absurd this (by simp)
    · rw [Function.update_noteq ht₁] at h₁
      have := hD t₁ h₁
      rw [hfalse] at this
      exact absurd this (by simp)
  · intro t' h
    rfl
  · intro t' h
    by_cases ht : t' = t
    · subst ht; rw [Function.update_same]
    · rw [Function.update_noteq ht] at h
      rw [Function.update_noteq ht]
      exact hF t' h

lemma invA_init (n : Nat) : InvA (initA n) := by
  refine ⟨?_, ?_, ?_, ?_, ?_⟩ <;> simp [initA]

lemma invA_step {n : Nat} {s s' : StateA n} (hs : InvA s) (hstep : StepA s s') : InvA s' := by
  cases hstep with
  | acquireReadFresh t s h1 h2 => exact invA_keepFlags hs _ t PC.reading (by simp)
  | acquireReadMore t s k h1 h2 => exact invA_keepFlags hs _ t PC.reading (by simp)
  | readTrue t s k h1 h2 h3 => exact invA_observe hs h2 _ t
  | readFalse t s k h1 h2 h3 => exact invA_keepFlags hs _ t PC.upgrading (by simp)
  | acquireWrite t s h1 h2 => exact invA_keepFlags hs _ t PC.writing (by simp)
  | writeTrue t s h1 h2 h3 => exact invA_observe hs h2 _ t
  | writeFalse t s h1 h2 h3 => exact invA_doInit hs h2 _ t

lemma invA_reach {n : Nat} {s : StateA n} (h : ReachA n s) : InvA s := by
  induction h with
  | init => exact invA_init n
  | step _ hstep ih => exact invA_step ih hstep

lemma acquire_lockType (tid : Nat) (write acceptWork : Bool) :
    ∀ (ms : List TaskMutex) (m' : TaskMutex) (lt : LockType),
      acquire tid write acceptWork ms = some (m', lt) →
      lt = if write then LockType.Write else LockType.Read := by
  intro ms
  induction ms with
  | nil => intro m' lt h; simp [acquire] at h
  | cons m rest ih =>
      intro m' lt h
      unfold acquire at h
      cases htry : tryAcquire m tid (if write then LockType.Write else LockType.Read) with
      | some m2 =>
          rw [htry] at h
          simp at h
          exact h.2.symm
      | none =>
          rw [htry] at h
          exact ih m' lt h

lemma findSome?_map_runWorker (wss : List (List Frag)) :
    (wss.map runWorkerFrags).findSome? (fun r => r.contributed) = wss.findSome? collectError := by
  induction wss with
  | nil => rfl
  | cons fs rest ih =>
      simp only [List.map_cons, List.findSome?]
      cases h : collectError fs with
      | some e => simp [runWorkerFrags, h]
      | none => simp [runWorkerFrags, h, ih]

lemma wait_done (k : Nat) (b : BackgroundTask) (h : b.done = true) :
    BackgroundTask.wait k b = b := by
  cases k <;> simp [BackgroundTask.wait, h]

/-- C1: for every set of `n` concurrent threads racing to lazily
initialise a shared resource behind a single TaskMutex using the
read-then-upgrade pattern (acquire with writer = false, check the flag,
upgradeToWriter, check again, then execute the initialisation), in every
complete interleaving exactly one thread performs the initialisation
side-effect, and every thread observes the fully-initialised resource
after acquiring its lock. -/
theorem lazyInit_exactlyOneInitialiser (n : Nat) (s : StateA n)
    (hreach : ReachA n s) (hfin : ∀ t, (s.threads t).pc = PC.finished) (hn : 0 < n) :
    s.initialised = true ∧
    (∃! t, (s.threads t).didInit = true) ∧
    (∀ t, (s.threads t).observed = true) := by
  obtain ⟨hD, hE, hO, hB, hF⟩ := invA_reach hreach
  have hobs : ∀ t, (s.threads t).observed = true := fun t => hF t (hfin t)
  have hinit : s.initialised = true := hB ⟨0, hn⟩ (hobs ⟨0, hn⟩)
  obtain ⟨td, htd⟩ := hE hinit
  exact ⟨hinit, ⟨td, htd, fun t' h' => hO t' td h' htd⟩, hobs⟩

theorem lazyInit_exactlyOneInitialiser_witness :
    ∃ s : StateA 1, ReachA 1 s ∧ (∀ t, (s.threads t).pc = PC.finished) ∧ 0 < 1 ∧
      (s.initialised = true ∧
        (∃! t, (s.threads t).didInit = true) ∧
        (∀ t, (s.threads t).observed = true)) := by
  have r1 := ReachA.step (ReachA.init 1)
    (StepA.acquireReadFresh (0 : Fin 1) (initA 1) (by decide) (by decide))
  have r2 := ReachA.step r1 (StepA.readFalse (0 : Fin 1) _ 0 (by decide) (by decide) (by decide))
  have r3 := ReachA.step r2 (StepA.acquireWrite (0 : Fin 1) _ (by decide) (by decide))
  have r4 := ReachA.step r3 (StepA.writeFalse (0 : Fin 1) _ (by decide) (by decide) (by decide))
  exact ⟨_, r4, by decide, by decide,
    lazyInit_exactlyOneInitialiser 1 _ r4 (by decide) (by decide)⟩

/-- C2: in every reachable state of the mutex machine, at most one
thread holds write access; read access may be held by many threads
simultaneously but never concurrently with write access; and a thread
joining the write-holder's published `pendingTask` does not count as a
lock holder while doing so — the owner state still names the publishing
thread, not the joiner. -/
theorem taskMutex_ownership_invariant :
    (∀ (n : Nat) (s : StateB n), ReachB n s →
      (∀ t₁ t₂, s.lockTypes t₁ = LockType.Write → s.lockTypes t₂ = LockType.Write → t₁ = t₂) ∧
      (∀ t t', s.lockTypes t = LockType.Read → s.lockTypes t' ≠ LockType.Write) ∧
      (∀ t, s.lockTypes t = LockType.WorkerRead →
        s.owner ≠ OwnerState.WriteLocked t.val ∧
        ∃ w, s.pending = some w ∧ w ≠ t ∧ s.owner = OwnerState.WriteLocked w.val)) ∧
    (∃ s : StateB 2, ReachB 2 s ∧ s.owner = OwnerState.ReadLocked 2 ∧
      s.lockTypes 0 = LockType.Read ∧ s.lockTypes 1 = LockType.Read) := by
  constructor
  · intro n s hreach
    obtain ⟨hW, hU, hR, hWc, hP, hJ⟩ := invB_reach hreach
    refine ⟨?_, ?_, ?_⟩
    · intro t₁ t₂ h₁ h₂
      have e₁ := (hW t₁).mp h₁
      have e₂ := (hW t₂).mp h₂
      rw [e₁] at e₂
      have hv : t₂.val = t₁.val := by
        injection e₂ with h
        exact h.symm
      exact (Fin.ext hv).symm
    · intro t t' hr hw
      have howner := (hW t').mp hw
      have hc := hWc t'.val howner
      have hpos := countRead_pos s.lockTypes t hr
      omega
    · intro t h
      obtain ⟨w, hpend, hwt⟩ := hJ t h
      have hwWrite := hP w hpend
      have howner := (hW w).mp hwWrite
      refine ⟨?_, w, hpend, hwt, howner⟩
      intro hcontra
      have := (hW t).mpr hcontra
      rw [this] at h
      exact absurd h (by simp)
  · have r1 := ReachB.step (ReachB.init 2)
      (StepB.acquireReadFresh (0 : Fin 2) (initB 2) (by decide) (by decide))
    have r2 := ReachB.step r1
      (StepB.acquireReadMore (1 : Fin 2) _ 1 (by decide) (by decide))
    exact ⟨_, r2, by decide, by decide, by decide⟩

theorem taskMutex_ownership_invariant_witness :
    (∀ t₁ t₂ : Fin 1, (initB 1).lockTypes t₁ = LockType.Write →
        (initB 1).lockTypes t₂ = LockType.Write → t₁ = t₂) ∧
    (∀ t t' : Fin 1, (initB 1).lockTypes t = LockType.Read →
        (initB 1).lockTypes t' ≠ LockType.Write) ∧
    (∀ t : Fin 1, (initB 1).lockTypes t = LockType.WorkerRead →
      (initB 1).owner ≠ OwnerState.WriteLocked t.val ∧
      ∃ w, (initB 1).pending = some w ∧ w ≠ t ∧
        (initB 1).owner = OwnerState.WriteLocked w.val) :=
  taskMutex_ownership_invariant.1 1 (initB 1) (ReachB.init 1)

/-- C3: if the callable passed to `execute()` throws, the exception is
captured and rethrown exactly once to the `execute()` caller, only after
every cooperating worker's run is accounted for, with the message exactly
as thrown; no worker's own context sees the exception; and a subsequent
non-throwing `execute()` on the same mutex succeeds normally. -/
theorem execute_exception_rethrownOnce (m : TaskMutex) (tid : Nat) (l : ScopedLock)
    (e : String) (workerFrags : List (List Frag)) (hl : l.lockType = LockType.Write) :
    ∃ r, execute m tid l [Except.error e] workerFrags = some r ∧
      r.outcome = Except.error e ∧
      r.workerOutcomes.length = workerFrags.length ∧
      (∀ o ∈ r.workerOutcomes, o = Except.ok ()) ∧
      r.mutex.pendingTask = none ∧
      (∃ r₂, execute r.mutex tid l [Except.ok ()] [] = some r₂ ∧
        r₂.outcome = Except.ok ()) := by
  unfold execute
  rw [if_pos hl]
  refine ⟨_, rfl, rfl, by simp, ?_, rfl, ?_⟩
  · intro o ho
    rw [List.mem_map] at ho
    obtain ⟨fs, _, hfs⟩ := ho
    rw [← hfs]
    simp [workerOutcome, runWorkerFrags]
  · rw [if_pos hl]
    exact ⟨_, rfl, rfl⟩

theorem execute_exception_rethrownOnce_witness :
    (ScopedLock.mk LockType.Write).lockType = LockType.Write ∧
    (∃ r, execute (TaskMutex.mk OwnerState.Unlocked none) 0 (ScopedLock.mk LockType.Write)
        [Except.error "Oops!"] [[Except.ok ()]] = some r ∧
      r.outcome = Except.error "Oops!" ∧
      r.workerOutcomes.length = [[(Except.ok () : Frag)]].length ∧
      (∀ o ∈ r.workerOutcomes, o = Except.ok ()) ∧
      r.mutex.pendingTask = none ∧
      (∃ r₂, execute r.mutex 0 (ScopedLock.mk LockType.Write) [Except.ok ()] [] = some r₂ ∧
        r₂.outcome = Except.ok ())) :=
  ⟨rfl, execute_exception_rethrownOnce (TaskMutex.mk OwnerState.Unlocked none) 0
    (ScopedLock.mk LockType.Write) "Oops!" [[Except.ok ()]] rfl⟩

/-- C4: an exception thrown inside a work fragment run on a joining
worker thread surfaces only at the initiating thread's `execute()` call
(with the thrown message); it is never raised in the joining worker's own
context, and the worker's `acquire` itself surfaces no exception. -/
theorem workerException_routedToInitiator :
    (∀ (m : TaskMutex) (tid : Nat) (l : ScopedLock) (initiatorFrags : List Frag)
        (wss : List (List Frag)) (e : String),
      l.lockType = LockType.Write →
      collectError initiatorFrags = none →
      wss.findSome? collectError = some e →
      ∃ r, execute m tid l initiatorFrags wss = some r ∧ r.outcome = Except.error e) ∧
    (∀ fs, (runWorkerFrags fs).raisedLocally = none) ∧
    (∀ (tid : Nat) (write : Bool) (ms : List TaskMutex) (fs : List Frag),
      (acquireAcceptingWork tid write ms fs).localException = none) := by
  refine ⟨?_, fun fs => rfl, fun tid write ms fs => rfl⟩
  intro m tid l initiatorFrags wss e hl hinit hws
  unfold execute
  rw [if_pos hl]
  refine ⟨_, rfl, ?_⟩
  dsimp only
  rw [hinit, findSome?_map_runWorker, hws]

theorem workerException_routedToInitiator_witness :
    (ScopedLock.mk LockType.Write).lockType = LockType.Write ∧
    collectError [Except.ok ()] = none ∧
    [[(Except.error "Oops!" : Frag)]].findSome? collectError = some "Oops!" ∧
    (∃ r, execute (TaskMutex.mk OwnerState.Unlocked none) 0 (ScopedLock.mk LockType.Write)
        [Except.ok ()] [[Except.error "Oops!"]] = some r ∧
      r.outcome = Except.error "Oops!") ∧
    (acquireAcceptingWork 0 false [] [Except.error "Oops!"]).localException = none :=
  ⟨rfl, rfl, rfl,
    workerException_routedToInitiator.1 (TaskMutex.mk OwnerState.Unlocked none) 0
      (ScopedLock.mk LockType.Write) [Except.ok ()] [[Except.error "Oops!"]] "Oops!" rfl rfl rfl,
    workerException_routedToInitiator.2.2 0 false [] [Except.error "Oops!"]⟩

/-- C5: `acquire` returns only with the requested access fully obtained —
on return the lock type is `Read` when called with writer = false, `Write`
when called with writer = true, never the half-acquired `None`; an
`acquireOr` that acquired by joining yields `WorkerRead`; and a
`ScopedLock` holding no lock reports `None`. -/
theorem acquire_returnsRequestedLockType :
    (∀ (tid : Nat) (write acceptWork : Bool) (ms : List TaskMutex)
        (m' : TaskMutex) (lt : LockType),
      acquire tid write acceptWork ms = some (m', lt) →
      lt = (if write then LockType.Write else LockType.Read) ∧ lt ≠ LockType.None) ∧
    (∀ (m : TaskMutex) (tid : Nat) (pred : Bool → Bool),
      (acquireOr m tid LockType.WorkerRead pred).acquired = true →
      (acquireOr m tid LockType.WorkerRead pred).lockType = LockType.WorkerRead) ∧
    ScopedLock.unheld.lockType = LockType.None := by
  refine ⟨?_, ?_, rfl⟩
  · intro tid write acceptWork ms m' lt h
    have hlt := acquire_lockType tid write acceptWork ms m' lt h
    refine ⟨hlt, ?_⟩
    rw [hlt]
    cases write <;> simp
  · intro m tid pred
    cases htry : tryAcquire m tid LockType.WorkerRead with
    | some m2 => intro _; simp [acquireOr, htry]
    | none => intro hacq; simp [acquireOr, htry] at hacq

theorem acquire_returnsRequestedLockType_witness :
    (LockType.Write = (if true then LockType.Write else LockType.Read) ∧
      LockType.Write ≠ LockType.None) ∧
    (acquireOr (TaskMutex.mk (OwnerState.WriteLocked 1) (some 1)) 0 LockType.WorkerRead
        (fun _ => true)).lockType = LockType.WorkerRead :=
  ⟨acquire_returnsRequestedLockType.1 7 true true [TaskMutex.mk OwnerState.Unlocked none]
      (TaskMutex.mk (OwnerState.WriteLocked 7) none) LockType.Write (by decide),
    acquire_returnsRequestedLockType.2.1 (TaskMutex.mk (OwnerState.WriteLocked 1) (some 1)) 0
      (fun _ => true) (by decide)⟩

/-- C6: `upgradeToWriter`, called when the lock type is `Read`, returns
with lock type `Write`; calling it without holding a read lock is a
caller contract violation with no recoverable result; and because the
release and re-acquire are not atomic, another writer may intervene —
witnessed by a reachable interleaving in which a thread that saw the
flag unset before upgrading holds the write lock while the flag is
already set, so the pre-upgrade check must be repeated. -/
theorem upgradeToWriter_contract :
    (∀ (m : TaskMutex) (tid : Nat) (l : ScopedLock) (env : List TaskMutex)
        (m' : TaskMutex) (l' : ScopedLock),
      l.lockType = LockType.Read →
      upgradeToWriter m tid l env = some (m', l') →
      l'.lockType = LockType.Write) ∧
    (∀ (m : TaskMutex) (tid : Nat) (l : ScopedLock) (env : List TaskMutex),
      l.lockType ≠ LockType.Read → upgradeToWriter m tid l env = none) ∧
    (∃ s : StateA 2, ReachA 2 s ∧ (s.threads 0).pc = PC.writing ∧ s.initialised = true) := by
  refine ⟨?_, ?_, ?_⟩
  · intro m tid l env m' l' hread h
    unfold upgradeToWriter at h
    rw [if_pos hread] at h
    obtain ⟨p, hacq, hp⟩ := Option.map_eq_some'.mp h
    have hlt := acquire_lockType tid true true (releaseRead m :: env) p.1 p.2 hacq
    injection hp with h1 h2
    rw [← h2]
    simpa using hlt
  · intro m tid l env hnot
    unfold upgradeToWriter
    rw [if_neg hnot]
  · have r1 := ReachA.step (ReachA.init 2)
      (StepA.acquireReadFresh (0 : Fin 2) (initA 2) (by decide) (by decide))
    have r2 := ReachA.step r1
      (StepA.readFalse (0 : Fin 2) _ 0 (by decide) (by decide) (by decide))
    have r3 := ReachA.step r2
      (StepA.acquireReadFresh (1 : Fin 2) _ (by decide) (by decide))
    have r4 := ReachA.step r3
      (StepA.readFalse (1 : Fin 2) _ 0 (by decide) (by decide) (by decide))
    have r5 := ReachA.step r4
      (StepA.acquireWrite (1 : Fin 2) _ (by decide) (by decide))
    have r6 := ReachA.step r5
      (StepA.writeFalse (1 : Fin 2) _ (by decide) (by decide) (by decide))
    have r7 := ReachA.step r6
      (StepA.acquireWrite (0 : Fin 2) _ (by decide) (by decide))
    exact ⟨_, r7, by decide, by decide⟩

theorem upgradeToWriter_contract_witness :
    (ScopedLock.mk LockType.Read).lockType = LockType.Read ∧
    (upgradeToWriter (TaskMutex.mk (OwnerState.ReadLocked 1) none) 7
        (ScopedLock.mk LockType.Read) []
      = some (TaskMutex.mk (OwnerState.WriteLocked 7) none, ScopedLock.mk LockType.Write)) ∧
    (ScopedLock.mk LockType.Write).lockType = LockType.Write ∧
    upgradeToWriter (TaskMutex.mk (OwnerState.ReadLocked 1) none) 7
      (ScopedLock.mk LockType.Write) [] = none :=
  ⟨rfl, by decide,
    upgradeToWriter_contract.1 (TaskMutex.mk (OwnerState.ReadLocked 1) none) 7
      (ScopedLock.mk LockType.Read) []
      (TaskMutex.mk (OwnerState.WriteLocked 7) none) (ScopedLock.mk LockType.Write)
      rfl (by decide),
    upgradeToWriter_contract.2.1 (TaskMutex.mk (OwnerState.ReadLocked 1) none) 7
      (ScopedLock.mk LockType.Write) [] (by decide)⟩

/-- C7: `acquireOr` on a mutex already write-locked by another lock,
with no published `pendingTask`, invokes the caller's predicate exactly
once with the work-available flag false, returns `false`, leaves the
caller's lock type `None`, joins no work and leaves the mutex untouched —
it performs no blocking acquisition. -/
theorem acquireOr_writeLocked_noPendingTask (m : TaskMutex) (tid w : Nat) (pred : Bool → Bool)
    (howner : m.ownerState = OwnerState.WriteLocked w) (hpend : m.pendingTask = none) :
    acquireOr m tid LockType.Write pred
      = ⟨false, m, LockType.None, [false], false⟩ := by
  unfold acquireOr tryAcquire
  rw [howner, hpend]
  simp

theorem acquireOr_writeLocked_noPendingTask_witness :
    acquireOr (TaskMutex.mk (OwnerState.WriteLocked 1) none) 0 LockType.Write (fun _ => true)
      = ⟨false, TaskMutex.mk (OwnerState.WriteLocked 1) none, LockType.None, [false], false⟩ :=
  acquireOr_writeLocked_noPendingTask (TaskMutex.mk (OwnerState.WriteLocked 1) none) 0 1
    (fun _ => true) rfl rfl

/-- C8: `BackgroundTask` state transitions are one-directional — from
`Running` only to `Completed` or `Cancelled`, and terminal states are
sticky under every event; a task whose work observes cancellation via its
token reaches `Cancelled`, not `Completed`, after `cancel()`; and a
bounded wait after `cancel()` always reaches a terminal state — it never
blocks indefinitely. -/
theorem backgroundTask_oneDirectional :
    (∀ b b', BTStep b b' →
      b'.status = b.status ∨
        (b.status = Status.Running ∧
          (b'.status = Status.Completed ∨ b'.status = Status.Cancelled))) ∧
    (∀ b b', BTStep b b' → b.status ≠ Status.Running → b'.status = b.status) ∧
    (∀ b : BackgroundTask, b.status = Status.Running →
      (BackgroundTask.wait 1 b.cancel).status = Status.Cancelled) ∧
    (∀ b : BackgroundTask, (BackgroundTask.wait 1 b.cancel).done = true) := by
  refine ⟨?_, ?_, ?_, ?_⟩
  · intro b b' h
    cases h with
    | inl h => subst h; left; rfl
    | inr h =>
        subst h
        cases hb : b.status with
        | Running =>
            by_cases ht : b.cancellationToken = true
            · right
              refine ⟨rfl, Or.inr ?_⟩
              simp [BackgroundTask.workStep, hb, ht]
            · cases hc : b.checkpointsLeft with
              | zero =>
                  right
                  refine ⟨rfl, Or.inl ?_⟩
                  simp [BackgroundTask.workStep, hb, ht, hc]
              | succ k =>
                  left
                  simp [BackgroundTask.workStep, hb, ht, hc]
        | Completed => left; simp [BackgroundTask.workStep, hb]
        | Cancelled => left; simp [BackgroundTask.workStep, hb]
  · intro b b' h hnr
    cases h with
    | inl h => subst h; rfl
    | inr h =>
        subst h
        cases hb : b.status with
        | Running => exact absurd hb hnr
        | Completed => simp [BackgroundTask.workStep, hb]
        | Cancelled => simp [BackgroundTask.workStep, hb]
  · intro b hb
    simp [BackgroundTask.wait, BackgroundTask.cancel, BackgroundTask.done,
      BackgroundTask.workStep, hb]
  · intro b
    cases hb : b.status <;>
      simp [BackgroundTask.wait, BackgroundTask.cancel, BackgroundTask.done,
        BackgroundTask.workStep, hb]

theorem backgroundTask_oneDirectional_witness :
    ((BackgroundTask.workStep (BackgroundTask.mk Status.Running false 5)).status
        = (BackgroundTask.mk Status.Running false 5).status ∨
      ((BackgroundTask.mk Status.Running false 5).status = Status.Running ∧
        ((BackgroundTask.workStep (BackgroundTask.mk Status.Running false 5)).status
            = Status.Completed ∨
          (BackgroundTask.workStep (BackgroundTask.mk Status.Running false 5)).status
            = Status.Cancelled))) ∧
    (BackgroundTask.wait 1 (BackgroundTask.cancel
        (BackgroundTask.mk Status.Running false 5))).status = Status.Cancelled :=
  ⟨backgroundTask_oneDirectional.1 (BackgroundTask.mk Status.Running false 5)
      (BackgroundTask.workStep (BackgroundTask.mk Status.Running false 5)) (Or.inr rfl),
    backgroundTask_oneDirectional.2.2.1 (BackgroundTask.mk Status.Running false 5) rfl⟩

/-- C9: `cancelAndWait()` is `cancel()` immediately followed by `wait()`,
the destructor is `cancelAndWait()`, and destruction never completes
while the worker is still running: with any positive fuel the destroyed
task is in a terminal state — it fully quiesces before the object goes
away. -/
theorem backgroundTask_destructor_quiesces :
    (∀ (fuel : Nat) (b : BackgroundTask),
      BackgroundTask.cancelAndWait fuel b = BackgroundTask.wait fuel b.cancel) ∧
    (∀ (fuel : Nat) (b : BackgroundTask),
      BackgroundTask.destroy fuel b = BackgroundTask.cancelAndWait fuel b) ∧
    (∀ (b : BackgroundTask) (fuel : Nat), 1 ≤ fuel →
      (BackgroundTask.destroy fuel b).done = true) := by
  refine ⟨fun fuel b => rfl, fun fuel b => rfl, ?_⟩
  intro b fuel hf
  obtain ⟨k, rfl⟩ : ∃ k, fuel = k + 1 := ⟨fuel - 1, by omega⟩
  unfold BackgroundTask.destroy BackgroundTask.cancelAndWait
  by_cases hd : ({ b with cancellationToken := true } : BackgroundTask).done = true
  · rw [BackgroundTask.wait]
    simp only [hd, if_true]
  · have hst : b.status = Status.Running := by
      unfold BackgroundTask.done at hd
      simp at hd
      exact hd
    rw [BackgroundTask.wait]
    simp only [hd, if_false]
    rw [wait_done]
    · simp [BackgroundTask.workStep, BackgroundTask.done, hst]
    · simp [BackgroundTask.workStep, BackgroundTask.done, hst]

theorem backgroundTask_destructor_quiesces_witness :
    1 ≤ 1 ∧
    (BackgroundTask.destroy 1 (BackgroundTask.mk Status.Running false 3)).done = true ∧
    BackgroundTask.cancelAndWait 1 (BackgroundTask.mk Status.Running false 3)
      = BackgroundTask.wait 1 (BackgroundTask.mk Status.Running false 3).cancel :=
  ⟨Nat.le_refl 1,
    backgroundTask_destructor_quiesces.2.2 (BackgroundTask.mk Status.Running false 3) 1
      (Nat.le_refl 1),
    backgroundTask_destructor_quiesces.1 1 (BackgroundTask.mk Status.Running false 3)⟩

/-- C10: constructing a `ScopedLock` with only the mutex argument (all
other parameters defaulted) acquires write access — on every uncontended
mutex the construction succeeds and the resulting lock type is `Write`. -/
theorem scopedLock_defaultConstruction_write (m : TaskMutex) (tid : Nat)
    (h : m.ownerState = OwnerState.Unlocked) :
    ∃ m' l, scopedLockOfMutex m tid = some (m', l) ∧ l.lockType = LockType.Write := by
  refine ⟨{ m with ownerState := OwnerState.WriteLocked tid }, ScopedLock.mk LockType.Write,
    ?_, rfl⟩
  unfold scopedLockOfMutex acquire tryAcquire
  rw [h]
  simp

theorem scopedLock_defaultConstruction_write_witness :
    ∃ m' l, scopedLockOfMutex (TaskMutex.mk OwnerState.Unlocked none) 3 = some (m', l) ∧
      l.lockType = LockType.Write :=
  scopedLock_defaultConstruction_write (TaskMutex.mk OwnerState.Unlocked none) 3 rfl
